import Mathlib

/-!
Shallow embedding of the translation layer of tidb-binlog's reparo syncer
(`reparo/syncer/translate.go`).  The file embeds the three functions of the
source — `pbBinlogToTxn`, `genColsAndArgs` and `parserSchemaTableFromDDL` —
over explicit models of the wire data (`pb.Binlog`, `pb.Event`, `pb.Column`)
and of the loader output (`loader.Txn`, `loader.DML`, `loader.DDL`).

External primitives that the source calls but does not define — the protobuf
`Column.Unmarshal`, the value codec `codec.DecodeOne`, the type-directed
`formatValue`/`GetValue` pair, and the SQL parser `parser.New().Parse` — are
passed in as a record of functions (`Externs`), mirroring the spec's view of
them as opaque collaborators.  Go maps are modelled as association lists with
assignment semantics (`mapAssign`: overwrite if present, append otherwise).
Go's `for` loops over rows, events and statements are expressed as structural
recursions that process elements in the same order and abort on the first
error, which is observationally what the Go code does (any partially built
`txn` is discarded by `return nil, err`).

A Go panic (the unchecked `col.Tp[0]` index) is modelled as a distinguished
error constructor `Err.indexOutOfRange`, kept apart from returned Go errors
(`Err.msg`), so that "panics" and "returned errors" stay distinguishable.
-/

namespace TidbBinlog

/-- Translation outcome markers: `msg` models a Go `error` carrying this
message (`errors.Trace` preserves the message, `errors.Errorf` formats one);
`indexOutOfRange` models a Go runtime panic from an out-of-bounds index. -/
inductive Err where
  | msg (s : String)
  | indexOutOfRange
  deriving DecidableEq, Repr

/-- `pb.Column`: one column's wire encoding (name, type-descriptor bytes,
display type, encoded current value, and — for updates — encoded changed
value). -/
structure Column where
  name : String
  tp : List Nat
  mysqlType : String
  value : List Nat
  changedValue : List Nat
  deriving DecidableEq, Repr

/-- `pb.EventType`: the row event kind tag; `other` covers every tag outside
Insert/Update/Delete (the Go `default:` branch). -/
inductive EventType where
  | insert
  | update
  | delete
  | other (tag : Nat)
  deriving DecidableEq, Repr

/-- `pb.Event`: one row-level change inside a DML binlog. -/
structure Event where
  schemaName : String
  tableName : String
  tp : EventType
  row : List (List Nat)
  deriving DecidableEq, Repr

/-- `pb.BinlogType`: the outer record kind tag. -/
inductive BinlogTp where
  | ddl
  | dml
  | other (tag : Nat)
  deriving DecidableEq, Repr

/-- `pb.Binlog`: the wire record.  `ddlQuery` models `binlog.DdlQuery`
(already as a string, as the Go code converts it); `dmlEvents` models
`binlog.DmlData.GetEvents()`. -/
structure Binlog where
  tp : BinlogTp
  ddlQuery : String
  dmlEvents : List Event
  deriving DecidableEq, Repr

/-- `loader.DMLType`. -/
inductive DMLType where
  | insertDML
  | updateDML
  | deleteDML
  deriving DecidableEq, Repr

/-- `loader.DML`: one normalized row change.  Go's
`map[string]interface{}` fields are modelled as association lists built with
map-assignment semantics (`mapAssign`). -/
structure DML (Value : Type) where
  database : String
  table : String
  tp : DMLType
  values : List (String × Value)
  oldValues : List (String × Value)
  deriving DecidableEq, Repr

/-- `loader.DDL`. -/
structure DDLInfo where
  sql : String
  database : String
  table : String
  deriving DecidableEq, Repr

/-- `loader.Txn`: the normalized transaction handed downstream. -/
structure Txn (Value : Type) where
  ddl : Option DDLInfo
  dmls : List (DML Value)
  deriving DecidableEq, Repr

/-- The statement AST shapes `parserSchemaTableFromDDL` matches on, one
constructor per `case` of the Go type switch.  A schema string `""` models an
absent qualifier (Go tests `len(node.Table.Schema.O) != 0`).  For
`DropTableStmt` the parser guarantees at least one table and the Go code only
reads `Tables[0]`, so the first table is carried apart from the rest; for
`RenameTableStmt` the Go code only reads `NewTable`, but the old identity is
carried so that its irrelevance is expressible.  `other` covers every other
statement kind (the Go `default:` branch). -/
inductive Stmt where
  | useStmt (dbName : String)
  | createDatabase (name : String)
  | dropDatabase (name : String)
  | truncateTable (schema table : String)
  | createIndex (schema table : String)
  | createTable (schema table : String)
  | dropIndex (schema table : String)
  | alterTable (schema table : String)
  | dropTable (firstSchema firstTable : String) (restTables : List (String × String))
  | renameTable (oldSchema oldTable newSchema newTable : String)
  | other
  deriving DecidableEq, Repr

/-- The external primitives the translation layer consumes, as the spec's
§6 lists them: the protobuf column unmarshaller, the value codec
(`codec.DecodeOne`), the type-directed formatting pass (`formatValue`, repo
code outside this translation unit, together with `Datum.GetValue`), and the
SQL parser (returning the statement list the Go type switch inspects). -/
structure Externs (Datum Value : Type) where
  unmarshalColumn : List Nat → Except String Column
  decodeOne : List Nat → Except String (List Nat × Datum)
  formatValue : Datum → Nat → Datum
  getValue : Datum → Value
  parse : String → Except String (List Stmt)

variable {Datum Value : Type}

/-- Go map assignment `m[k] = v`: overwrite the entry if the key is present,
append it otherwise (last-write-wins on duplicate keys). -/
def mapAssign (m : List (String × Value)) (k : String) (v : Value) :
    List (String × Value) :=
  if m.any (fun p => p.1 == k) then
    m.map (fun p => if p.1 == k then (k, v) else p)
  else
    m ++ [(k, v)]

/-- The map-building loop after `genColsAndArgs` in the Insert/Delete arms:
`for i := 0; i < len(cols); i++ { dml.Values[cols[i]] = args[i] }`. -/
def buildMap (cols : List String) (args : List Value) : List (String × Value) :=
  (cols.zip args).foldl (fun m p => mapAssign m p.1 p.2) []

/-- `genColsAndArgs(row)`: unmarshal each column, decode its current payload
with the codec, read the first type-descriptor byte (`col.Tp[0]`, a panic
when `Tp` is empty), format, and collect names and values in input order.
The Go `for` loop is written as structural recursion; the first failure
aborts, as in the source. -/
def genColsAndArgs (E : Externs Datum Value) :
    List (List Nat) → Except Err (List String × List Value)
  | [] => .ok ([], [])
  | c :: rest =>
    match E.unmarshalColumn c with
    | .error e => .error (.msg e)
    | .ok col =>
      match E.decodeOne col.value with
      | .error e => .error (.msg e)
      | .ok (_, val) =>
        match col.tp with
        | [] => .error .indexOutOfRange
        | t :: _ =>
          match genColsAndArgs E rest with
          | .error e => .error e
          | .ok (cols, args) =>
            .ok (col.name :: cols, E.getValue (E.formatValue val t) :: args)

/-- The Update arm's loop over `event.GetRow()`: unmarshal, decode the old
(`col.Value`) and new (`col.ChangedValue`) payloads, read `col.Tp[0]`, format
both with the same type byte and assign into the two maps.  Tail recursion
with the accumulated `(Values, OldValues)` pair models the Go loop's mutation
of the two maps. -/
def updateRowLoop (E : Externs Datum Value)
    (acc : List (String × Value) × List (String × Value)) :
    List (List Nat) → Except Err (List (String × Value) × List (String × Value))
  | [] => .ok acc
  | c :: rest =>
    match E.unmarshalColumn c with
    | .error e => .error (.msg e)
    | .ok col =>
      match E.decodeOne col.value with
      | .error e => .error (.msg e)
      | .ok (_, oldDatum) =>
        match E.decodeOne col.changedValue with
        | .error e => .error (.msg e)
        | .ok (_, newDatum) =>
          match col.tp with
          | [] => .error .indexOutOfRange
          | t :: _ =>
            updateRowLoop E
              (mapAssign acc.1 col.name (E.getValue (E.formatValue newDatum t)),
               mapAssign acc.2 col.name (E.getValue (E.formatValue oldDatum t)))
              rest

/-- How Go's `%v` prints an `EventType` tag in `errors.Errorf("unknown
type: %v", event.GetTp())` for a tag outside the enum: the raw number. -/
def eventTagString (tag : Nat) : String := toString tag

/-- The body of the `for _, event := range data.GetEvents()` loop for one
event: the `switch event.GetTp()` of `pbBinlogToTxn`. -/
def translateEvent (E : Externs Datum Value) (event : Event) :
    Except Err (DML Value) :=
  match event.tp with
  | .insert =>
    match genColsAndArgs E event.row with
    | .error e => .error e
    | .ok (cols, args) =>
      .ok { database := event.schemaName, table := event.tableName,
            tp := .insertDML, values := buildMap cols args, oldValues := [] }
  | .update =>
    match updateRowLoop E ([], []) event.row with
    | .error e => .error e
    | .ok (vals, olds) =>
      .ok { database := event.schemaName, table := event.tableName,
            tp := .updateDML, values := vals, oldValues := olds }
  | .delete =>
    match genColsAndArgs E event.row with
    | .error e => .error e
    | .ok (cols, args) =>
      .ok { database := event.schemaName, table := event.tableName,
            tp := .deleteDML, values := buildMap cols args, oldValues := [] }
  | .other tag => .error (.msg ("unknown type: " ++ eventTagString tag))

/-- The event loop of the DML arm: translate each event in input order,
aborting on the first failure (the Go code then discards the partly built
`txn` via `return nil, err`). -/
def translateEvents (E : Externs Datum Value) :
    List Event → Except Err (List (DML Value))
  | [] => .ok []
  | ev :: rest =>
    match translateEvent E ev with
    | .error e => .error e
    | .ok dml =>
      match translateEvents E rest with
      | .error e => .error e
      | .ok dmls => .ok (dml :: dmls)

/-- One step of the `for _, stmt := range stmts` loop of
`parserSchemaTableFromDDL`: the type switch updating the mutable
`(schema, table, haveUseStmt)` state, or failing on an unrecognized
statement kind. -/
def ddlStep (ddlQuery : String) (st : String × String × Bool) (s : Stmt) :
    Except Err (String × String × Bool) :=
  match s with
  | .useStmt db => .ok (db, st.2.1, true)
  | .createDatabase n => .ok (n, st.2.1, st.2.2)
  | .dropDatabase n => .ok (n, st.2.1, st.2.2)
  | .truncateTable sch tbl =>
    .ok (if sch.length ≠ 0 then sch else st.1, tbl, st.2.2)
  | .createIndex sch tbl =>
    .ok (if sch.length ≠ 0 then sch else st.1, tbl, st.2.2)
  | .createTable sch tbl =>
    .ok (if sch.length ≠ 0 then sch else st.1, tbl, st.2.2)
  | .dropIndex sch tbl =>
    .ok (if sch.length ≠ 0 then sch else st.1, tbl, st.2.2)
  | .alterTable sch tbl =>
    .ok (if sch.length ≠ 0 then sch else st.1, tbl, st.2.2)
  | .dropTable fsch ftbl _ =>
    .ok (if fsch.length ≠ 0 then fsch else st.1, ftbl, st.2.2)
  | .renameTable _ _ nsch ntbl =>
    .ok (if nsch.length ≠ 0 then nsch else st.1, ntbl, st.2.2)
  | .other => .error (.msg ("unknown ddl type, ddl: " ++ ddlQuery))

/-- The statement loop, threading the `(schema, table, haveUseStmt)` state
left to right as the Go range loop does. -/
def ddlLoop (ddlQuery : String) (st : String × String × Bool) :
    List Stmt → Except Err (String × String × Bool)
  | [] => .ok st
  | s :: rest =>
    match ddlStep ddlQuery st s with
    | .error e => .error e
    | .ok st' => ddlLoop ddlQuery st' rest

/-- `parserSchemaTableFromDDL(ddlQuery)`: parse, walk the statements, then
apply the statement-count rule (`haveUseStmt` ⇒ exactly 2 statements, else
exactly 1), returning the accumulated schema and table. -/
def parserSchemaTableFromDDL (parse : String → Except String (List Stmt))
    (ddlQuery : String) : Except Err (String × String) :=
  match parse ddlQuery with
  | .error e => .error (.msg e)
  | .ok stmts =>
    match ddlLoop ddlQuery ("", "", false) stmts with
    | .error e => .error e
    | .ok (schema, table, haveUseStmt) =>
      if haveUseStmt then
        if stmts.length ≠ 2 then .error (.msg ("invalid ddl " ++ ddlQuery))
        else .ok (schema, table)
      else
        if stmts.length ≠ 1 then .error (.msg ("invalid ddl " ++ ddlQuery))
        else .ok (schema, table)

/-- How Go's `%v` prints a `BinlogType` tag in the outer `default:` branch. -/
def binlogTagString (tag : Nat) : String := toString tag

/-- `pbBinlogToTxn(binlog)`: the top-level translate.  The DDL arm resolves
schema/table from the query text and rejects an empty schema; the DML arm
translates the events in order; any other outer kind fails. -/
def pbBinlogToTxn (E : Externs Datum Value) (binlog : Binlog) :
    Except Err (Txn Value) :=
  match binlog.tp with
  | .ddl =>
    let sql := binlog.ddlQuery
    match parserSchemaTableFromDDL E.parse sql with
    | .error e => .error e
    | .ok (schema, table) =>
      if schema.length = 0 then
        .error (.msg ("can't parse database name from DDL " ++ sql))
      else
        .ok { ddl := some { sql := sql, database := schema, table := table },
              dmls := [] }
  | .dml =>
    match translateEvents E binlog.dmlEvents with
    | .error e => .error e
    | .ok dmls => .ok { ddl := none, dmls := dmls }
  | .other tag => .error (.msg ("unknown type: " ++ binlogTagString tag))

/-- Whether a statement is a `USE` statement (used to phrase the
statement-count rule: the Go flag `haveUseStmt` is set exactly when the list
contains one). -/
def isUse : Stmt → Bool
  | .useStmt _ => true
  | _ => false

/-- Whether the resolver's type switch recognizes a statement (every
constructor except `other`; `other` is the `default:` branch that fails with
the unknown-ddl-type error). -/
def isKnownStmt : Stmt → Bool
  | .other => false
  | _ => true

/-- Substring test on strings, used to state what an error message does or
does not contain. -/
def strHasSub (s pat : String) : Bool :=
  (List.range (s.length + 1)).any
    (fun i => ((s.toList.drop i).take pat.length) == pat.toList)

/-! Section: Concrete instantiations of the external primitives

Small executable instances of `Externs` used to evaluate the translation on
concrete inputs.  The toy unmarshaller reads a one-byte buffer `[n]` as a
column named `"a"` of type byte `1` with decodable payloads, `[0, 0]` as a
column `"b"` whose type descriptor is empty, and `[1, 1]` as a column `"c1"`
whose payloads the toy codec rejects.  The toy codec decodes exactly the
one-byte buffers. -/

/-- A constant parser returning a fixed statement list, to exercise the DDL
resolver on chosen parse results. -/
def parseConst (stmts : List Stmt) : String → Except String (List Stmt) :=
  fun _ => .ok stmts

/-- Toy externals over `Datum = Value = Nat`. -/
def toyExterns : Externs Nat Nat where
  unmarshalColumn := fun bs =>
    match bs with
    | [0, 0] =>
      .ok { name := "b", tp := [], mysqlType := "int", value := [7],
            changedValue := [8] }
    | [1, 1] =>
      .ok { name := "c1", tp := [1], mysqlType := "int", value := [],
            changedValue := [] }
    | [n] =>
      .ok { name := "a", tp := [1], mysqlType := "int", value := [n],
            changedValue := [n + 1] }
    | _ => .error "unmarshal failed"
  decodeOne := fun bs =>
    match bs with
    | [n] => .ok ([], n)
    | _ => .error "decode failed"
  formatValue := fun d _ => d
  getValue := fun d => d
  parse := fun _ => .error "syntax error"

/-! Section: Helper lemmas about the event loop -/

/-- If some event in the list fails to translate, the whole event loop
fails. -/
theorem translateEvents_error_of_mem (E : Externs Datum Value)
    {evs : List Event} {ev : Event} {e : Err} (hmem : ev ∈ evs)
    (hfail : translateEvent E ev = .error e) :
    ∃ e', translateEvents E evs = .error e' := by
  induction evs with
  | nil => cases hmem
  | cons hd tl ih =>
    rcases List.mem_cons.mp hmem with h | h
    · subst h
      exact ⟨e, by simp [translateEvents, hfail]⟩
    · cases htr : translateEvent E hd with
      | error e2 => exact ⟨e2, by simp [translateEvents, htr]⟩
      | ok dml =>
        rcases ih h with ⟨e', h'⟩
        exact ⟨e', by simp [translateEvents, htr, h']⟩

/-- Successful event loops translate element by element, preserving order
and length. -/
theorem translateEvents_ok_spec (E : Externs Datum Value) :
    ∀ (evs : List Event) (dmls : List (DML Value)),
      translateEvents E evs = .ok dmls →
      dmls.length = evs.length ∧
      ∀ i (hi : i < evs.length) (hj : i < dmls.length),
        translateEvent E (evs.get ⟨i, hi⟩) = .ok (dmls.get ⟨i, hj⟩) := by
  intro evs
  induction evs with
  | nil =>
    intro dmls h
    simp only [translateEvents] at h
    injection h with h
    subst h
    exact ⟨rfl, fun i hi _ => absurd hi (by simp)⟩
  | cons hd tl ih =>
    intro dmls h
    cases htr : translateEvent E hd with
    | error e => simp [translateEvents, htr] at h
    | ok dml =>
      cases htl : translateEvents E tl with
      | error e => simp [translateEvents, htr, htl] at h
      | ok dmls' =>
        simp only [translateEvents, htr, htl] at h
        injection h with h
        subst h
        obtain ⟨hlen, hget⟩ := ih dmls' htl
        refine ⟨by simp [hlen], ?_⟩
        intro i hi hj
        cases i with
        | zero => simpa using htr
        | succ n =>
          simpa using hget n (by simpa using hi) (by simpa using hj)

/-- Every operation in a successful event loop's output is the translation
of some input event. -/
theorem translateEvents_ok_mem (E : Externs Datum Value) :
    ∀ (evs : List Event) (dmls : List (DML Value)),
      translateEvents E evs = .ok dmls →
      ∀ dml ∈ dmls, ∃ ev ∈ evs, translateEvent E ev = .ok dml := by
  intro evs
  induction evs with
  | nil =>
    intro dmls h dml hm
    simp only [translateEvents] at h
    injection h with h
    subst h
    cases hm
  | cons hd tl ih =>
    intro dmls h dml hm
    cases htr : translateEvent E hd with
    | error e => simp [translateEvents, htr] at h
    | ok dml0 =>
      cases htl : translateEvents E tl with
      | error e => simp [translateEvents, htr, htl] at h
      | ok dmls' =>
        simp only [translateEvents, htr, htl] at h
        injection h with h
        subst h
        rcases List.mem_cons.mp hm with h | h
        · exact ⟨hd, List.mem_cons_self .., by rw [htr, h]⟩
        · rcases ih dmls' htl dml h with ⟨ev, hev, htr'⟩
          exact ⟨ev, List.mem_cons_of_mem _ hev, htr'⟩

/-! Section: C1 -/

/-- C1: for every DML wire record, if any row event fails to translate
(column unmarshal failure, payload decode failure, or a kind tag outside
Insert/Update/Delete — exactly the error outcomes of `translateEvent`), then
`pbBinlogToTxn` returns an error and no transaction at all: the `Except`
result carries no partially filled DML batch. -/
theorem C1_whole_record_fails (E : Externs Datum Value) (b : Binlog)
    (hb : b.tp = .dml) (ev : Event) (hmem : ev ∈ b.dmlEvents) (e : Err)
    (hfail : translateEvent E ev = .error e) :
    ∃ e', pbBinlogToTxn E b = .error e' := by
  rcases translateEvents_error_of_mem E hmem hfail with ⟨e', h⟩
  exact ⟨e', by simp [pbBinlogToTxn, hb, h]⟩

/-- Witness for C1: a two-event record whose second event has the unknown
kind tag 9; the first event is translatable, yet the whole record fails. -/
theorem C1_witness :
    translateEvent toyExterns
        { schemaName := "db", tableName := "t", tp := .other 9, row := [] } =
      .error (.msg "unknown type: 9") ∧
    ∃ e', pbBinlogToTxn toyExterns
        { tp := .dml, ddlQuery := "",
          dmlEvents :=
            [{ schemaName := "db", tableName := "t", tp := .insert,
               row := [[5]] },
             { schemaName := "db", tableName := "t", tp := .other 9,
               row := [] }] } = .error e' :=
  ⟨rfl,
   C1_whole_record_fails toyExterns _ rfl
     { schemaName := "db", tableName := "t", tp := .other 9, row := [] }
     (by simp) _ rfl⟩

/-! Section: C7 -/

/-- C7: for every DML wire record that translates successfully, the output
operations are in bijection with the input row events in order: there are as
many operations as events, and the i-th operation is the translation of the
i-th event. -/
theorem C7_order_preserved (E : Externs Datum Value) (b : Binlog)
    (t : Txn Value) (hb : b.tp = .dml) (h : pbBinlogToTxn E b = .ok t) :
    t.dmls.length = b.dmlEvents.length ∧
    ∀ i (hi : i < b.dmlEvents.length) (hj : i < t.dmls.length),
      translateEvent E (b.dmlEvents.get ⟨i, hi⟩) = .ok (t.dmls.get ⟨i, hj⟩) := by
  cases htr : translateEvents E b.dmlEvents with
  | error e => simp [pbBinlogToTxn, hb, htr] at h
  | ok dmls =>
    simp only [pbBinlogToTxn, hb, htr] at h
    injection h with h
    subst h
    exact translateEvents_ok_spec E _ _ htr

/-- Witness for C7: a two-event insert record; translation succeeds and the
output batch has the operations in input order. -/
theorem C7_witness :
    pbBinlogToTxn toyExterns
        { tp := .dml, ddlQuery := "",
          dmlEvents :=
            [{ schemaName := "d1", tableName := "t1", tp := .insert,
               row := [[5]] },
             { schemaName := "d2", tableName := "t2", tp := .delete,
               row := [[6]] }] } =
      .ok { ddl := none,
            dmls :=
              [{ database := "d1", table := "t1", tp := .insertDML,
                 values := [("a", 5)], oldValues := [] },
               { database := "d2", table := "t2", tp := .deleteDML,
                 values := [("a", 6)], oldValues := [] }] } ∧
    ({ ddl := none,
       dmls :=
         [{ database := "d1", table := "t1", tp := .insertDML,
            values := [("a", 5)], oldValues := [] },
          { database := "d2", table := "t2", tp := .deleteDML,
            values := [("a", 6)], oldValues := [] }] } : Txn Nat).dmls.length =
      2 :=
  ⟨rfl,
   (C7_order_preserved toyExterns
     { tp := .dml, ddlQuery := "",
       dmlEvents :=
         [{ schemaName := "d1", tableName := "t1", tp := .insert,
            row := [[5]] },
          { schemaName := "d2", tableName := "t2", tp := .delete,
            row := [[6]] }] }
     { ddl := none,
       dmls :=
         [{ database := "d1", table := "t1", tp := .insertDML,
            values := [("a", 5)], oldValues := [] },
          { database := "d2", table := "t2", tp := .deleteDML,
            values := [("a", 6)], oldValues := [] }] }
     rfl rfl).1⟩

/-! Section: C5 -/

/-- C5: for every DDL wire record, a successful translation carries a DDL
change whose schema is non-empty (and is exactly what the resolver
returned); a resolver failure is propagated as an error; and a resolver
success with an empty schema is turned into the can't-parse-database error.
No DDL change with an empty schema is ever returned. -/
theorem C5_ddl_schema_nonempty (E : Externs Datum Value) (b : Binlog)
    (hb : b.tp = .ddl) :
    (∀ t, pbBinlogToTxn E b = .ok t →
       ∃ d, t.ddl = some d ∧ d.database.length ≠ 0 ∧
         parserSchemaTableFromDDL E.parse b.ddlQuery =
           .ok (d.database, d.table)) ∧
    (∀ e, parserSchemaTableFromDDL E.parse b.ddlQuery = .error e →
       pbBinlogToTxn E b = .error e) ∧
    (∀ sch tbl,
       parserSchemaTableFromDDL E.parse b.ddlQuery = .ok (sch, tbl) →
       sch.length = 0 →
       pbBinlogToTxn E b =
         .error (.msg ("can't parse database name from DDL " ++ b.ddlQuery))) := by
  refine ⟨?_, ?_, ?_⟩
  · intro t h
    cases hres : parserSchemaTableFromDDL E.parse b.ddlQuery with
    | error e => simp [pbBinlogToTxn, hb, hres] at h
    | ok p =>
      obtain ⟨sch, tbl⟩ := p
      by_cases hlen : sch.length = 0
      · simp [pbBinlogToTxn, hb, hres, hlen] at h
      · simp only [pbBinlogToTxn, hb, hres, hlen, if_neg hlen] at h
        injection h with h
        subst h
        exact ⟨_, rfl, hlen, by simp [hres]⟩
  · intro e hres
    simp [pbBinlogToTxn, hb, hres]
  · intro sch tbl hres hlen
    simp [pbBinlogToTxn, hb, hres, hlen]

/-- Witness for C5: a resolvable `USE db1; CREATE TABLE t` parse result
gives a transaction whose DDL schema is the non-empty `db1`. -/
theorem C5_witness :
    ∃ d, ({ ddl := some { sql := "q", database := "db1", table := "t" },
            dmls := [] } : Txn Nat).ddl = some d ∧
      d.database.length ≠ 0 ∧
      parserSchemaTableFromDDL
          ({ toyExterns with
             parse := parseConst [Stmt.useStmt "db1",
                                  Stmt.createTable "" "t"] } :
            Externs Nat Nat).parse "q" = .ok (d.database, d.table) :=
  (C5_ddl_schema_nonempty
    ({ toyExterns with
       parse := parseConst [Stmt.useStmt "db1", Stmt.createTable "" "t"] } :
      Externs Nat Nat)
    { tp := .ddl, ddlQuery := "q", dmlEvents := [] } rfl).1
    { ddl := some { sql := "q", database := "db1", table := "t" }, dmls := [] }
    rfl

/-! Section: Helper lemmas about the DDL statement loop -/

/-- One resolver step sets the `haveUseStmt` flag exactly on a `USE`
statement and never clears it. -/
theorem ddlStep_ok_haveUse (q : String) (st : String × String × Bool)
    (s : Stmt) (st' : String × String × Bool) (h : ddlStep q st s = .ok st') :
    st'.2.2 = (st.2.2 || isUse s) := by
  cases s <;> simp only [ddlStep, isUse] at h ⊢ <;> first
    | (injection h with h; subst h; simp)
    | cases h

/-- A recognized statement never fails the resolver step. -/
theorem ddlStep_ok_of_known (q : String) (st : String × String × Bool)
    (s : Stmt) (hs : isKnownStmt s = true) :
    ∃ st', ddlStep q st s = .ok st' := by
  cases s <;> simp only [ddlStep] <;> first
    | exact ⟨_, rfl⟩
    | simp [isKnownStmt] at hs

/-- After a successful walk, the `haveUseStmt` flag holds exactly when the
statement list contains a `USE` statement. -/
theorem ddlLoop_ok_haveUse (q : String) :
    ∀ (stmts : List Stmt) (st out : String × String × Bool),
      ddlLoop q st stmts = .ok out →
      out.2.2 = (st.2.2 || stmts.any isUse) := by
  intro stmts
  induction stmts with
  | nil =>
    intro st out h
    simp only [ddlLoop] at h
    injection h with h
    subst h
    simp
  | cons s rest ih =>
    intro st out h
    cases hst : ddlStep q st s with
    | error e => simp [ddlLoop, hst] at h
    | ok st' =>
      simp only [ddlLoop, hst] at h
      rw [ih st' out h, ddlStep_ok_haveUse q st s st' hst]
      simp [Bool.or_assoc]

/-- A list of recognized statements never fails the walk. -/
theorem ddlLoop_ok_of_known (q : String) :
    ∀ (stmts : List Stmt), (∀ s ∈ stmts, isKnownStmt s = true) →
      ∀ st, ∃ out, ddlLoop q st stmts = .ok out := by
  intro stmts
  induction stmts with
  | nil => exact fun _ st => ⟨st, rfl⟩
  | cons s rest ih =>
    intro hall st
    obtain ⟨st', hst⟩ :=
      ddlStep_ok_of_known q st s (hall s (List.mem_cons_self ..))
    obtain ⟨out, hout⟩ :=
      ih (fun x hx => hall x (List.mem_cons_of_mem _ hx)) st'
    exact ⟨out, by simp [ddlLoop, hst, hout]⟩

/-! Section: C3 -/

/-- C3: for every DDL text that parses, resolution succeeds only under the
statement-count rule (a list containing a `USE` statement must have exactly
2 statements, any other list exactly 1); and whenever every statement is
individually recognized but the count rule fails, the resolver fails with
the invalid-ddl (MalformedDDL) error. -/
theorem C3_statement_count_rule (parse : String → Except String (List Stmt))
    (q : String) (stmts : List Stmt) (hp : parse q = .ok stmts) :
    (∀ res, parserSchemaTableFromDDL parse q = .ok res →
       (if stmts.any isUse then stmts.length = 2 else stmts.length = 1)) ∧
    ((∀ s ∈ stmts, isKnownStmt s = true) →
       ¬ (if stmts.any isUse then stmts.length = 2 else stmts.length = 1) →
       parserSchemaTableFromDDL parse q =
         .error (.msg ("invalid ddl " ++ q))) := by
  constructor
  · intro res hres
    cases hloop : ddlLoop q ("", "", false) stmts with
    | error e => simp [parserSchemaTableFromDDL, hp, hloop] at hres
    | ok out =>
      obtain ⟨sch, tbl, haveUse⟩ := out
      have hu : haveUse = stmts.any isUse := by
        simpa using ddlLoop_ok_haveUse q stmts ("", "", false) _ hloop
      simp only [parserSchemaTableFromDDL, hp, hloop] at hres
      subst hu
      by_cases hc : stmts.any isUse
      · simp only [hc, if_true] at hres ⊢
        by_cases h2 : stmts.length = 2
        · exact h2
        · simp [h2] at hres
      · simp only [hc, if_false, Bool.false_eq_true] at hres ⊢
        by_cases h1 : stmts.length = 1
        · exact h1
        · simp [h1] at hres
  · intro hknown hcount
    obtain ⟨out, hloop⟩ := ddlLoop_ok_of_known q stmts hknown ("", "", false)
    obtain ⟨sch, tbl, haveUse⟩ := out
    have hu : haveUse = stmts.any isUse := by
      simpa using ddlLoop_ok_haveUse q stmts ("", "", false) _ hloop
    subst hu
    by_cases hc : stmts.any isUse
    · rw [hc] at hcount
      simp only [if_true] at hcount
      simp [parserSchemaTableFromDDL, hp, hloop, hc, hcount]
    · rw [if_neg (by simpa using hc)] at hcount
      simp [parserSchemaTableFromDDL, hp, hloop, hc, hcount]

/-- Witness for C3: a lone `USE db1` parse result (one statement, containing
a `USE`) fails with the invalid-ddl error. -/
theorem C3_witness :
    parserSchemaTableFromDDL (parseConst [Stmt.useStmt "db1"]) "USE db1" =
      .error (.msg ("invalid ddl " ++ "USE db1")) :=
  (C3_statement_count_rule (parseConst [Stmt.useStmt "db1"]) "USE db1"
    [Stmt.useStmt "db1"] rfl).2 (by decide) (by decide)

/-! Section: C4 -/

/-- The table-bearing statement kinds of the resolver's type switch: those
whose `case` reads a referenced table's qualifier and name. -/
inductive TableStmtKind where
  | truncateK
  | createIndexK
  | createTableK
  | dropIndexK
  | alterTableK
  | dropTableK
  | renameTableK
  deriving DecidableEq, Repr

/-- Builds the statement of the given table-bearing kind referencing
`sch.tbl` (`sch = ""` models an absent qualifier); for drop-table the single
referenced table, for rename-table the new table. -/
def mkTableStmt : TableStmtKind → String → String → Stmt
  | .truncateK, s, t => .truncateTable s t
  | .createIndexK, s, t => .createIndex s t
  | .createTableK, s, t => .createTable s t
  | .dropIndexK, s, t => .dropIndex s t
  | .alterTableK, s, t => .alterTable s t
  | .dropTableK, s, t => .dropTable s t []
  | .renameTableK, s, t => .renameTable "" "" s t

/-- C4: for a `USE`-prefixed DDL whose second statement is any table-bearing
statement, the resolved schema is the statement's own qualifier when that
qualifier is present, overriding the `USE` schema, and the `USE` schema
otherwise; the table is the statement's table. -/
theorem C4_explicit_qualifier_wins
    (parse : String → Except String (List Stmt)) (q u : String)
    (k : TableStmtKind) (sch tbl : String)
    (hp : parse q = .ok [Stmt.useStmt u, mkTableStmt k sch tbl]) :
    parserSchemaTableFromDDL parse q =
      .ok ((if sch.length ≠ 0 then sch else u), tbl) := by
  cases k <;>
    simp [parserSchemaTableFromDDL, hp, ddlLoop, ddlStep, mkTableStmt]

/-- Witness for C4: `USE db1; CREATE TABLE db2.t` resolves to `(db2, t)`
(the explicit qualifier wins). -/
theorem C4_witness :
    parserSchemaTableFromDDL
        (parseConst [Stmt.useStmt "db1", Stmt.createTable "db2" "t"]) "q" =
      .ok ("db2", "t") := by
  have h := C4_explicit_qualifier_wins
    (parseConst [Stmt.useStmt "db1", Stmt.createTable "db2" "t"]) "q" "db1"
    .createTableK "db2" "t" rfl
  simpa using h

/-! Section: C9 -/

/-- C9: a successfully resolved `RENAME TABLE` takes schema and table from
the new table's qualifier and name; the old table's identity (quantified
here and absent from the result) is never used. -/
theorem C9_rename_uses_new_table
    (parse : String → Except String (List Stmt)) (q : String)
    (oldSch oldTbl newSch newTbl : String)
    (hp : parse q = .ok [Stmt.renameTable oldSch oldTbl newSch newTbl])
    (hns : newSch.length ≠ 0) :
    parserSchemaTableFromDDL parse q = .ok (newSch, newTbl) := by
  simp [parserSchemaTableFromDDL, hp, ddlLoop, ddlStep, hns]

/-- Witness for C9: `RENAME TABLE old_db.old_t TO new_db.new_t` resolves to
`(new_db, new_t)`. -/
theorem C9_witness :
    parserSchemaTableFromDDL
        (parseConst [Stmt.renameTable "old_db" "old_t" "new_db" "new_t"])
        "q" = .ok ("new_db", "new_t") :=
  C9_rename_uses_new_table
    (parseConst [Stmt.renameTable "old_db" "old_t" "new_db" "new_t"]) "q"
    "old_db" "old_t" "new_db" "new_t" rfl (by decide)

/-! Section: Helper lemmas about map assignment -/

/-- Map assignment either keeps the key list (overwrite) or appends the new
key. -/
theorem mapAssign_keys (m : List (String × Value)) (k : String) (v : Value) :
    (mapAssign m k v).map Prod.fst =
      if m.any (fun p => p.1 == k) then m.map Prod.fst
      else m.map Prod.fst ++ [k] := by
  by_cases hcond : m.any (fun p => p.1 == k)
  · simp only [mapAssign, hcond, if_true, List.map_map]
    refine List.map_congr_left ?_
    intro p _
    simp only [Function.comp_apply]
    by_cases hp : p.1 = k
    · simp [hp]
    · simp [hp]
  · simp [mapAssign, hcond]

/-- The key-membership test of `mapAssign` depends only on the key list. -/
theorem anyKey_eq_of_keys_eq (k : String) :
    ∀ (xs ys : List (String × Value)),
      xs.map Prod.fst = ys.map Prod.fst →
      xs.any (fun p => p.1 == k) = ys.any (fun p => p.1 == k) := by
  intro xs
  induction xs with
  | nil =>
    intro ys h
    cases ys with
    | nil => rfl
    | cons y ys => simp at h
  | cons x xs ih =>
    intro ys h
    cases ys with
    | nil => simp at h
    | cons y ys =>
      simp only [List.map_cons, List.cons.injEq] at h
      obtain ⟨h1, h2⟩ := h
      simp [List.any_cons, h1, ih ys h2]

/-- Two maps with equal key lists keep equal key lists under assignment of
the same key. -/
theorem mapAssign_keys_congr {xs ys : List (String × Value)} (k : String)
    (v w : Value) (h : xs.map Prod.fst = ys.map Prod.fst) :
    (mapAssign xs k v).map Prod.fst = (mapAssign ys k w).map Prod.fst := by
  rw [mapAssign_keys, mapAssign_keys, anyKey_eq_of_keys_eq k xs ys h, h]

/-- The update-row loop keeps the new-values and old-values key lists equal:
each step assigns the same column name into both maps. -/
theorem updateRowLoop_keys (E : Externs Datum Value) :
    ∀ (row : List (List Nat))
      (acc out : List (String × Value) × List (String × Value)),
      updateRowLoop E acc row = .ok out →
      acc.1.map Prod.fst = acc.2.map Prod.fst →
      out.1.map Prod.fst = out.2.map Prod.fst := by
  intro row
  induction row with
  | nil =>
    intro acc out h hk
    simp only [updateRowLoop] at h
    injection h with h
    subst h
    exact hk
  | cons c rest ih =>
    intro acc out h hk
    cases hc : E.unmarshalColumn c with
    | error e => simp [updateRowLoop, hc] at h
    | ok col =>
      cases hold : E.decodeOne col.value with
      | error e => simp [updateRowLoop, hc, hold] at h
      | ok po =>
        obtain ⟨ro, dOld⟩ := po
        cases hnew : E.decodeOne col.changedValue with
        | error e => simp [updateRowLoop, hc, hold, hnew] at h
        | ok pn =>
          obtain ⟨rn, dNew⟩ := pn
          cases htp : col.tp with
          | nil => simp [updateRowLoop, hc, hold, hnew, htp] at h
          | cons t ts =>
            simp only [updateRowLoop, hc, hold, hnew, htp] at h
            exact ih _ out h (mapAssign_keys_congr _ _ _ hk)

/-- Shape of a single translated event: an update operation has equal key
lists in `values` and `oldValues`; an insert or delete operation has empty
`oldValues`. -/
theorem translateEvent_shape (E : Externs Datum Value) (ev : Event)
    (dml : DML Value) (h : translateEvent E ev = .ok dml) :
    (dml.tp = .updateDML →
       dml.values.map Prod.fst = dml.oldValues.map Prod.fst) ∧
    ((dml.tp = .insertDML ∨ dml.tp = .deleteDML) → dml.oldValues = []) := by
  cases hev : ev.tp with
  | insert =>
    cases hg : genColsAndArgs E ev.row with
    | error e => simp [translateEvent, hev, hg] at h
    | ok p =>
      obtain ⟨cols, args⟩ := p
      simp only [translateEvent, hev, hg] at h
      injection h with h
      subst h
      refine ⟨fun hupd => ?_, fun _ => rfl⟩
      simp at hupd
  | update =>
    cases hup : updateRowLoop E ([], []) ev.row with
    | error e => simp [translateEvent, hev, hup] at h
    | ok p =>
      obtain ⟨vals, olds⟩ := p
      simp only [translateEvent, hev, hup] at h
      injection h with h
      subst h
      refine ⟨fun _ => ?_, fun h' => ?_⟩
      · exact updateRowLoop_keys E ev.row ([], []) (vals, olds) hup rfl
      · rcases h' with h' | h' <;> simp at h'
  | delete =>
    cases hg : genColsAndArgs E ev.row with
    | error e => simp [translateEvent, hev, hg] at h
    | ok p =>
      obtain ⟨cols, args⟩ := p
      simp only [translateEvent, hev, hg] at h
      injection h with h
      subst h
      refine ⟨fun hupd => ?_, fun _ => rfl⟩
      simp at hupd
  | other tag => simp [translateEvent, hev] at h

/-! Section: C6 -/

/-- C6: every operation in a successfully translated transaction satisfies
the shape invariant: an update operation's `values` and `oldValues` maps
have the same key list; an insert or delete operation's `oldValues` is
empty. -/
theorem C6_dml_op_shape (E : Externs Datum Value) (b : Binlog) (t : Txn Value)
    (h : pbBinlogToTxn E b = .ok t) (dml : DML Value) (hm : dml ∈ t.dmls) :
    (dml.tp = .updateDML →
       dml.values.map Prod.fst = dml.oldValues.map Prod.fst) ∧
    ((dml.tp = .insertDML ∨ dml.tp = .deleteDML) → dml.oldValues = []) := by
  cases hb : b.tp with
  | ddl =>
    cases hres : parserSchemaTableFromDDL E.parse b.ddlQuery with
    | error e => simp [pbBinlogToTxn, hb, hres] at h
    | ok p =>
      obtain ⟨sch, tbl⟩ := p
      by_cases hlen : sch.length = 0
      · simp [pbBinlogToTxn, hb, hres, hlen] at h
      · simp only [pbBinlogToTxn, hb, hres, if_neg hlen] at h
        injection h with h
        subst h
        cases hm
  | dml =>
    cases htr : translateEvents E b.dmlEvents with
    | error e => simp [pbBinlogToTxn, hb, htr] at h
    | ok dmls =>
      simp only [pbBinlogToTxn, hb, htr] at h
      injection h with h
      subst h
      rcases translateEvents_ok_mem E _ _ htr dml hm with ⟨ev, _, hok⟩
      exact translateEvent_shape E ev dml hok
  | other tag => simp [pbBinlogToTxn, hb] at h

/-- Witness for C6: a one-column update event yields equal key lists in the
two value maps. -/
theorem C6_witness :
    ({ database := "db", table := "t", tp := .updateDML,
       values := [("a", 6)], oldValues := [("a", 5)] } :
      DML Nat).values.map Prod.fst =
      ({ database := "db", table := "t", tp := .updateDML,
         values := [("a", 6)], oldValues := [("a", 5)] } :
        DML Nat).oldValues.map Prod.fst :=
  (C6_dml_op_shape toyExterns
    { tp := .dml, ddlQuery := "",
      dmlEvents :=
        [{ schemaName := "db", tableName := "t", tp := .update,
           row := [[5]] }] }
    { ddl := none,
      dmls :=
        [{ database := "db", table := "t", tp := .updateDML,
           values := [("a", 6)], oldValues := [("a", 5)] }] }
    rfl
    { database := "db", table := "t", tp := .updateDML,
      values := [("a", 6)], oldValues := [("a", 5)] }
    (by simp)).1 rfl

/-! Section: C10 -/

/-- C10: both decode paths read `col.Tp[0]` without a length check.  On any
unmarshalled column whose type descriptor is empty (all payloads decodable),
the single-image path and the dual-image path stop with the out-of-bounds
marker — not a returned translation error — and the single-image path never
hits the marker when every unmarshalled column has a non-empty descriptor. -/
theorem C10_tp_index_unchecked (E : Externs Datum Value) :
    (∀ (c : List Nat) (col : Column) (rest : List (List Nat))
       (rem : List Nat) (d : Datum),
       E.unmarshalColumn c = .ok col → col.tp = [] →
       E.decodeOne col.value = .ok (rem, d) →
       genColsAndArgs E (c :: rest) = .error .indexOutOfRange) ∧
    (∀ (row : List (List Nat)),
       (∀ c ∈ row, ∀ col, E.unmarshalColumn c = .ok col → col.tp ≠ []) →
       genColsAndArgs E row ≠ .error .indexOutOfRange) ∧
    (∀ (c : List Nat) (col : Column) (rest : List (List Nat))
       (rem1 rem2 : List Nat) (d1 d2 : Datum)
       (acc : List (String × Value) × List (String × Value)),
       E.unmarshalColumn c = .ok col → col.tp = [] →
       E.decodeOne col.value = .ok (rem1, d1) →
       E.decodeOne col.changedValue = .ok (rem2, d2) →
       updateRowLoop E acc (c :: rest) = .error .indexOutOfRange) := by
  refine ⟨?_, ?_, ?_⟩
  · intro c col rest rem d hc htp hd
    simp [genColsAndArgs, hc, hd, htp]
  · intro row
    induction row with
    | nil => intro _ h; simp [genColsAndArgs] at h
    | cons c rest ih =>
      intro hall h
      cases hc : E.unmarshalColumn c with
      | error e => simp [genColsAndArgs, hc] at h
      | ok col =>
        cases hd : E.decodeOne col.value with
        | error e => simp [genColsAndArgs, hc, hd] at h
        | ok p =>
          obtain ⟨rem, d⟩ := p
          cases htp : col.tp with
          | nil => exact absurd htp (hall c (List.mem_cons_self ..) col hc)
          | cons t ts =>
            cases hrest : genColsAndArgs E rest with
            | error e =>
              simp only [genColsAndArgs, hc, hd, htp, hrest] at h
              injection h with h
              exact ih (fun x hx => hall x (List.mem_cons_of_mem _ hx))
                (h ▸ hrest)
            | ok p2 =>
              obtain ⟨cols, args⟩ := p2
              simp [genColsAndArgs, hc, hd, htp, hrest] at h
  · intro c col rest rem1 rem2 d1 d2 acc hc htp hd1 hd2
    simp [updateRowLoop, hc, hd1, hd2, htp]

/-- Witness for C10: the toy column `"b"` carries an empty type descriptor
and a decodable payload; the single-image path stops with the out-of-bounds
marker. -/
theorem C10_witness :
    genColsAndArgs toyExterns [[0, 0]] = .error .indexOutOfRange :=
  (C10_tp_index_unchecked toyExterns).1 [0, 0]
    { name := "b", tp := [], mysqlType := "int", value := [7],
      changedValue := [8] } [] [] 7 rfl rfl rfl

/-! Section: Helper lemmas for the insert/delete round trip -/

/-- A successful single-image decode produces one name and one value per
input column, in order, with the value being the decoded-and-formatted
current payload under the column's first type byte. -/
theorem genColsAndArgs_spec (E : Externs Datum Value) :
    ∀ (row : List (List Nat)) (cols : List String) (args : List Value),
      genColsAndArgs E row = .ok (cols, args) →
      cols.length = row.length ∧ args.length = row.length ∧
      ∀ i (hi : i < row.length) (hc : i < cols.length) (ha : i < args.length),
        ∃ col rem d t ts,
          E.unmarshalColumn (row.get ⟨i, hi⟩) = .ok col ∧
          cols.get ⟨i, hc⟩ = col.name ∧
          E.decodeOne col.value = .ok (rem, d) ∧
          col.tp = t :: ts ∧
          args.get ⟨i, ha⟩ = E.getValue (E.formatValue d t) := by
  intro row
  induction row with
  | nil =>
    intro cols args h
    simp only [genColsAndArgs] at h
    injection h with h
    cases h
    exact ⟨rfl, rfl, fun i hi _ _ => absurd hi (by simp)⟩
  | cons c rest ih =>
    intro cols args h
    cases hc0 : E.unmarshalColumn c with
    | error e => simp [genColsAndArgs, hc0] at h
    | ok col =>
      cases hd0 : E.decodeOne col.value with
      | error e => simp [genColsAndArgs, hc0, hd0] at h
      | ok p =>
        obtain ⟨rem, d⟩ := p
        cases htp : col.tp with
        | nil => simp [genColsAndArgs, hc0, hd0, htp] at h
        | cons t ts =>
          cases hrest : genColsAndArgs E rest with
          | error e => simp [genColsAndArgs, hc0, hd0, htp, hrest] at h
          | ok p2 =>
            obtain ⟨cols', args'⟩ := p2
            simp only [genColsAndArgs, hc0, hd0, htp, hrest] at h
            injection h with h
            cases h
            obtain ⟨hl1, hl2, hidx⟩ := ih cols' args' hrest
            refine ⟨by simp [hl1], by simp [hl2], ?_⟩
            intro i hi hcl hal
            cases i with
            | zero => exact ⟨col, rem, d, t, ts, hc0, rfl, hd0, htp, rfl⟩
            | succ n =>
              exact hidx n (by simpa using hi) (by simpa using hcl)
                (by simpa using hal)

/-- Assigning a fresh key appends it. -/
theorem mapAssign_of_not_mem (m : List (String × Value)) (k : String)
    (v : Value) (h : m.any (fun p => p.1 == k) = false) :
    mapAssign m k v = m ++ [(k, v)] := by
  simp [mapAssign, h]

/-- With pairwise-distinct fresh keys, the map-building fold appends each
pair and never overwrites. -/
theorem foldl_mapAssign_eq_append :
    ∀ (cols : List String) (args : List Value) (m : List (String × Value)),
      cols.Nodup →
      (∀ k ∈ cols, m.any (fun p => p.1 == k) = false) →
      (cols.zip args).foldl (fun m p => mapAssign m p.1 p.2) m =
        m ++ cols.zip args := by
  intro cols
  induction cols with
  | nil => intro args m _ _; simp
  | cons c cs ih =>
    intro args m hnd hfresh
    cases args with
    | nil => simp
    | cons a as =>
      have hfresh' : ∀ k ∈ cs,
          (m ++ [(c, a)]).any (fun p => p.1 == k) = false := by
        intro k hk
        have h1 := hfresh k (List.mem_cons_of_mem _ hk)
        have h2 : ¬ c = k := fun hck => (List.nodup_cons.mp hnd).1 (hck ▸ hk)
        simp [List.any_append, h1, h2]
      simp only [List.zip_cons_cons, List.foldl_cons]
      rw [mapAssign_of_not_mem m c a (hfresh c (List.mem_cons_self ..)),
          ih as (m ++ [(c, a)]) (List.nodup_cons.mp hnd).2 hfresh']
      simp

/-- With pairwise-distinct column names, the built map is exactly the list
of name–value pairs. -/
theorem buildMap_eq_zip (cols : List String) (args : List Value)
    (hnd : cols.Nodup) : buildMap cols args = cols.zip args := by
  have h := foldl_mapAssign_eq_append cols args [] hnd (fun _ _ => rfl)
  simpa [buildMap] using h

/-- Looking up the i-th distinct key in the zipped pair list returns the
i-th value. -/
theorem lookup_zip_get :
    ∀ (cols : List String) (args : List Value), cols.Nodup →
      ∀ i (hc : i < cols.length) (ha : i < args.length),
        (cols.zip args).lookup (cols.get ⟨i, hc⟩) =
          some (args.get ⟨i, ha⟩) := by
  intro cols
  induction cols with
  | nil => intro args _ i hc _; exact absurd hc (by simp)
  | cons c cs ih =>
    intro args hnd i hc ha
    cases args with
    | nil => exact absurd ha (by simp)
    | cons a as =>
      cases i with
      | zero => simp [List.lookup]
      | succ n =>
        have hc' : n < cs.length := by simpa using hc
        have ha' : n < as.length := by simpa using ha
        have hmem : cs.get ⟨n, hc'⟩ ∈ cs := List.get_mem ..
        have hne : (cs.get ⟨n, hc'⟩ == c) = false := by
          refine beq_eq_false_iff_ne.mpr ?_
          intro hck
          exact (List.nodup_cons.mp hnd).1 (hck ▸ hmem)
        have h := ih as (List.nodup_cons.mp hnd).2 n hc' ha'
        simp only [List.get_eq_getElem] at hne h
        simpa [List.lookup, List.zip, hne] using h

/-! Section: C2 -/

/-- C2 counterexample: a two-column insert row whose columns share the name
`"a"` and whose payloads all decode; the resulting values map has one key,
not two — the claim's "exactly N keys" fails, because Go map assignment
collapses duplicate column names (last write wins). -/
theorem C2_counterexample :
    genColsAndArgs toyExterns [[5], [6]] = .ok (["a", "a"], [5, 6]) ∧
    pbBinlogToTxn toyExterns
        { tp := .dml, ddlQuery := "",
          dmlEvents :=
            [{ schemaName := "db", tableName := "t", tp := .insert,
               row := [[5], [6]] }] } =
      .ok { ddl := none,
            dmls :=
              [{ database := "db", table := "t", tp := .insertDML,
                 values := [("a", 6)], oldValues := [] }] } ∧
    ([("a", (6 : Nat))] : List (String × Nat)).length ≠ 2 :=
  ⟨rfl, rfl, by decide⟩

/-- C2 (amended): for every Insert or Delete row event with N columns whose
payloads all decode successfully and whose column names are pairwise
distinct, the DMLOp's values map has exactly N keys which are the column
names, and the value under each name is the codec's decode output for that
column's current payload passed through `formatValue` at the column's first
type-descriptor byte. -/
theorem C2_insert_delete_roundtrip (E : Externs Datum Value) (ev : Event)
    (dml : DML Value) (cols : List String) (args : List Value)
    (hk : ev.tp = .insert ∨ ev.tp = .delete)
    (hg : genColsAndArgs E ev.row = .ok (cols, args))
    (hnd : cols.Nodup)
    (h : translateEvent E ev = .ok dml) :
    dml.values.map Prod.fst = cols ∧
    dml.values.length = ev.row.length ∧
    (∀ i (hc : i < cols.length) (ha : i < args.length),
       dml.values.lookup (cols.get ⟨i, hc⟩) = some (args.get ⟨i, ha⟩)) ∧
    (∀ i (hi : i < ev.row.length) (hc : i < cols.length)
       (ha : i < args.length),
       ∃ col rem d t ts,
         E.unmarshalColumn (ev.row.get ⟨i, hi⟩) = .ok col ∧
         cols.get ⟨i, hc⟩ = col.name ∧
         E.decodeOne col.value = .ok (rem, d) ∧
         col.tp = t :: ts ∧
         args.get ⟨i, ha⟩ = E.getValue (E.formatValue d t)) := by
  obtain ⟨hl1, hl2, hidx⟩ := genColsAndArgs_spec E ev.row cols args hg
  have hv : dml.values = buildMap cols args := by
    rcases hk with hk | hk <;>
      (simp only [translateEvent, hk, hg] at h; injection h with h; subst h;
       rfl)
  rw [hv, buildMap_eq_zip cols args hnd]
  refine ⟨?_, ?_, ?_, hidx⟩
  · exact List.map_fst_zip cols args (by rw [hl1, hl2])
  · rw [List.length_zip, hl1, hl2]
    simp
  · exact fun i hc ha => lookup_zip_get cols args hnd i hc ha

/-- Witness for C2 (amended): a one-column insert row gives a one-key map
whose key is the column name. -/
theorem C2_witness :
    ({ database := "db", table := "t", tp := .insertDML,
       values := [("a", 5)], oldValues := [] } :
      DML Nat).values.map Prod.fst = ["a"] :=
  (C2_insert_delete_roundtrip toyExterns
    { schemaName := "db", tableName := "t", tp := .insert, row := [[5]] }
    { database := "db", table := "t", tp := .insertDML,
      values := [("a", 5)], oldValues := [] }
    ["a"] [5] (Or.inl rfl) rfl (by decide) rfl).1

/-! Section: C8 -/

/-- C8 counterexample: the column `"c1"` of declared display type `"int"`
has a payload the codec rejects with message `"decode failed"`; the
translation returns exactly that codec message (via `errors.Trace`, which
preserves it) and the message contains neither the column name nor its
declared type. -/
theorem C8_counterexample :
    toyExterns.unmarshalColumn [1, 1] =
      .ok { name := "c1", tp := [1], mysqlType := "int", value := [],
            changedValue := [] } ∧
    toyExterns.decodeOne [] = .error "decode failed" ∧
    pbBinlogToTxn toyExterns
        { tp := .dml, ddlQuery := "",
          dmlEvents :=
            [{ schemaName := "db", tableName := "t", tp := .insert,
               row := [[1, 1]] }] } =
      .error (.msg "decode failed") ∧
    strHasSub "decode failed" "c1" = false ∧
    strHasSub "decode failed" "int" = false :=
  ⟨rfl, rfl, rfl, by decide, by decide⟩

/-- C8 (amended): when either decode path fails with a returned Go error,
that error is some column's underlying unmarshal or codec error propagated
verbatim (`errors.Trace` adds no column name or type to the message): the
first conjunct covers the single-image path (`genColsAndArgs`, insert and
delete), the second the dual-image update loop, where the codec may reject
either the old (`Value`) or the new (`ChangedValue`) payload. -/
theorem C8_codec_error_verbatim (E : Externs Datum Value) :
    (∀ (row : List (List Nat)) (e : String),
       genColsAndArgs E row = .error (.msg e) →
       ∃ c ∈ row,
         E.unmarshalColumn c = .error e ∨
         ∃ col, E.unmarshalColumn c = .ok col ∧
           E.decodeOne col.value = .error e) ∧
    (∀ (row : List (List Nat))
       (acc : List (String × Value) × List (String × Value)) (e : String),
       updateRowLoop E acc row = .error (.msg e) →
       ∃ c ∈ row,
         E.unmarshalColumn c = .error e ∨
         ∃ col, E.unmarshalColumn c = .ok col ∧
           (E.decodeOne col.value = .error e ∨
            E.decodeOne col.changedValue = .error e)) := by
  constructor
  · intro row
    induction row with
    | nil => intro e h; simp [genColsAndArgs] at h
    | cons c rest ih =>
      intro e h
      cases hc : E.unmarshalColumn c with
      | error e0 =>
        simp only [genColsAndArgs, hc] at h
        injection h with h
        injection h with h
        exact ⟨c, List.mem_cons_self .., Or.inl (h ▸ hc)⟩
      | ok col =>
        cases hd : E.decodeOne col.value with
        | error e0 =>
          simp only [genColsAndArgs, hc, hd] at h
          injection h with h
          injection h with h
          exact ⟨c, List.mem_cons_self .., Or.inr ⟨col, hc, h ▸ hd⟩⟩
        | ok p =>
          obtain ⟨rem, d⟩ := p
          cases htp : col.tp with
          | nil => simp [genColsAndArgs, hc, hd, htp] at h
          | cons t ts =>
            cases hrest : genColsAndArgs E rest with
            | error e1 =>
              simp only [genColsAndArgs, hc, hd, htp, hrest] at h
              injection h with h
              rcases ih e (h ▸ hrest) with ⟨c', hm, hcase⟩
              exact ⟨c', List.mem_cons_of_mem _ hm, hcase⟩
            | ok p2 =>
              obtain ⟨cols, args⟩ := p2
              simp [genColsAndArgs, hc, hd, htp, hrest] at h
  · intro row
    induction row with
    | nil => intro acc e h; simp [updateRowLoop] at h
    | cons c rest ih =>
      intro acc e h
      cases hc : E.unmarshalColumn c with
      | error e0 =>
        simp only [updateRowLoop, hc] at h
        injection h with h
        injection h with h
        exact ⟨c, List.mem_cons_self .., Or.inl (h ▸ hc)⟩
      | ok col =>
        cases hold : E.decodeOne col.value with
        | error e0 =>
          simp only [updateRowLoop, hc, hold] at h
          injection h with h
          injection h with h
          exact ⟨c, List.mem_cons_self ..,
                 Or.inr ⟨col, hc, Or.inl (h ▸ hold)⟩⟩
        | ok po =>
          obtain ⟨ro, dOld⟩ := po
          cases hnew : E.decodeOne col.changedValue with
          | error e0 =>
            simp only [updateRowLoop, hc, hold, hnew] at h
            injection h with h
            injection h with h
            exact ⟨c, List.mem_cons_self ..,
                   Or.inr ⟨col, hc, Or.inr (h ▸ hnew)⟩⟩
          | ok pn =>
            obtain ⟨rn, dNew⟩ := pn
            cases htp : col.tp with
            | nil => simp [updateRowLoop, hc, hold, hnew, htp] at h
            | cons t ts =>
              simp only [updateRowLoop, hc, hold, hnew, htp] at h
              rcases ih _ e h with ⟨c', hm, hcase⟩
              exact ⟨c', List.mem_cons_of_mem _ hm, hcase⟩

/-- Witness for C8 (amended): in the update loop, the decode failure on
column `"c1"` is returned as exactly the codec's message. -/
theorem C8_witness :
    ∃ c ∈ ([[1, 1]] : List (List Nat)),
      toyExterns.unmarshalColumn c = .error "decode failed" ∨
      ∃ col, toyExterns.unmarshalColumn c = .ok col ∧
        (toyExterns.decodeOne col.value = .error "decode failed" ∨
         toyExterns.decodeOne col.changedValue = .error "decode failed") :=
  (C8_codec_error_verbatim toyExterns).2 [[1, 1]] ([], []) "decode failed" rfl

end TidbBinlog
